import Mathlib

/-!
Verification development for the ntfy-discord-bridge repository.

The repository relays ntfy pub/sub notifications to Discord webhooks.
Its core lives in `app/ntfy.py` (stream listener with a backoff retry
policy), `app/discord.py` (outbound dispatcher and notification-type
selection) and `app/task_manager.py` (supervisor reconciliation loop).
`main.py` contains an older inline copy of the listener and supervisor;
the `app` package versions are the ones the specification describes, and
they are the ones embedded here (divergences of the legacy copy are noted
where relevant).

External effects (HTTP transport, JSON parsing, the asyncio scheduler)
are represented by explicit outcome values handed to the embedded
functions; the control flow of the Python source is translated
faithfully.  The `backoff` library's jitter draws a random delay in
`[0, nominal]`; delays are embedded as the nominal (un-jittered) values
of `backoff.expo`, which is also the level at which the specification
speaks.
-/

namespace NtfyBridge

/-! ## Log levels (app/core/logging.py observables) -/

inductive Level where
  | debug
  | info
  | warning
  | error
deriving DecidableEq, Repr

/-- A log record: its level and the mapping id it mentions. -/
abbrev LogEvent := Level × Nat

/-! ## HTTP status classification

`httpx.Response.raise_for_status` raises `HTTPStatusError` exactly for
non-2xx responses; `app/ntfy.py` then tests
`HTTP_BAD_REQUEST <= status < HTTP_INTERNAL_SERVER_ERROR` (400..499). -/

def is2xx (c : Nat) : Bool := decide (200 ≤ c) && decide (c < 300)

def isClientError (c : Nat) : Bool := decide (400 ≤ c) && decide (c < 500)

/-! ## Dispatcher: `post_to_discord` (app/discord.py)

The outbound `session.post` either yields a response with some status
code or fails with an `httpx.RequestError`.  The source swallows
`HTTPStatusError` (logging at error level) and re-raises `RequestError`
after logging it. -/

inductive PostOutcome where
  | status (code : Nat)
  | requestErr
deriving DecidableEq, Repr

inductive DeliverErr where
  | requestErr
deriving DecidableEq, Repr

/-- `post_to_discord` (app/discord.py, delivery part): the emitted log
levels and what, if anything, propagates to the caller.
* 2xx response: success logged at info, returns normally.
* non-2xx response: `raise_for_status` raises `HTTPStatusError`, caught,
  logged at error level, swallowed (returns normally).
* `httpx.RequestError`: logged at error level, then re-raised. -/
def post_to_discord (o : PostOutcome) : List Level × Except DeliverErr Unit :=
  match o with
  | PostOutcome.status c =>
      if is2xx c then ([Level.info], Except.ok ())
      else ([Level.error], Except.ok ())
  | PostOutcome.requestErr => ([Level.error], Except.error DeliverErr.requestErr)

/-! ## Decoded JSON records (`json.loads` results)

`json.loads` is external; a parsed value is a Python object: a dict
(modelled as a key-value list with unique keys), a string, a number or
null.  A line that is not valid JSON raises `json.JSONDecodeError`,
modelled as the parser returning `none`. -/

inductive Json where
  | str (s : String)
  | num (n : Int)
  | null
  | obj (kvs : List (String × Json))

/-- Dict lookup `data.get(k)` (keys of a parsed JSON dict are unique). -/
def jGet (kvs : List (String × Json)) (k : String) : Option Json :=
  match kvs with
  | [] => Option.none
  | (k', v) :: rest => if k' = k then Option.some v else jGet rest k

/-- `data.get("event") == "message"`: true exactly when the "event" key
holds the string "message". -/
def isMessageEvent (kvs : List (String × Json)) : Bool :=
  match jGet kvs "event" with
  | Option.some (Json.str s) => s = "message"
  | _ => false

/-- Python whitespace stripped by `str.strip()` (ASCII range). -/
def pyWhitespace : List Char := [' ', '\t', '\n', '\r', Char.ofNat 11, Char.ofNat 12]

/-- `not line.strip()`: the line is empty or all-whitespace. -/
def isBlank (s : String) : Bool := s.data.all (fun c => pyWhitespace.contains c)

inductive LoopErr where
  | attributeErr
  | deliverErr
deriving DecidableEq, Repr

/-- The decode loop `_process_ntfy_stream` (app/ntfy.py) over a finite
list of received lines.  Per line: skip blank lines; `json.loads`
(`parse`, `none` = `JSONDecodeError`, which is caught and logged);
if the record's "event" equals "message", hand the record to
`post_to_discord` (whose outbound outcome is given by `deliver`).
A record that is not a dict makes `data.get` raise `AttributeError`,
which the `except json.JSONDecodeError` clause does not catch.
Returns the list of records handed to the dispatcher and how the loop
ended. -/
def processLines (parse : String → Option Json) (deliver : Json → PostOutcome) :
    List String → List Json × Except LoopErr Unit
  | [] => ([], Except.ok ())
  | line :: rest =>
    if isBlank line then processLines parse deliver rest
    else
      match parse line with
      | Option.none => processLines parse deliver rest
      | Option.some (Json.obj kvs) =>
        if isMessageEvent kvs then
          match (post_to_discord (deliver (Json.obj kvs))).2 with
          | Except.ok _ =>
            let out := processLines parse deliver rest
            (Json.obj kvs :: out.1, out.2)
          | Except.error _ => ([Json.obj kvs], Except.error LoopErr.deliverErr)
        else processLines parse deliver rest
      | Option.some _ => ([], Except.error LoopErr.attributeErr)

/-- Specification-side description of which events the decode loop must
dispatch: exactly the successfully parsed records whose event kind is
"message", each passed through unchanged.  Compared against
`processLines` (the code-side loop) in the refinement theorem. -/
def specDispatchedEvents (parse : String → Option Json) : List String → List Json
  | [] => []
  | line :: rest =>
    if isBlank line then specDispatchedEvents parse rest
    else
      match parse line with
      | Option.some (Json.obj kvs) =>
        if isMessageEvent kvs then Json.obj kvs :: specDispatchedEvents parse rest
        else specDispatchedEvents parse rest
      | _ => specDispatchedEvents parse rest

/-- Every non-blank line either fails to parse or parses to a dict
(a "structured record" in the specification's sense). -/
def linesAllRecords (parse : String → Option Json) : List String → Bool
  | [] => true
  | line :: rest =>
    (isBlank line ||
      (match parse line with
       | Option.some (Json.obj _) => true
       | Option.some _ => false
       | Option.none => true)) && linesAllRecords parse rest

/-! ## Notification-type selection (app/discord.py) -/

def COLOR_INFO : Nat := 3447003
def COLOR_SUCCESS : Nat := 3066993
def COLOR_WARNING : Nat := 16776960
def COLOR_ERROR : Nat := 15158332

def PRIORITY_URGENT : Int := 5
def PRIORITY_HIGH : Int := 4

def EMOJI_INFO : String := "ℹ️"
def EMOJI_SUCCESS : String := "✅"
def EMOJI_WARNING : String := "⚠️"
def EMOJI_ERROR : String := "❌"

def ERROR_TAGS : List String := ["error", "skull", "rotating_light", "fire", "boom"]
def WARNING_TAGS : List String := ["warning", "exclamation", "construction"]
def SUCCESS_TAGS : List String :=
  ["white_check_mark", "heavy_check_mark", "partying_face", "tada", "check"]

/-- `_check_tags_for_type` (app/discord.py): error tags, then warning
tags, then success tags. -/
def _check_tags_for_type (tagsLower : List String) : Option (Nat × String) :=
  if ERROR_TAGS.any (fun tag => tagsLower.contains tag) then
    Option.some (COLOR_ERROR, EMOJI_ERROR)
  else if WARNING_TAGS.any (fun tag => tagsLower.contains tag) then
    Option.some (COLOR_WARNING, EMOJI_WARNING)
  else if SUCCESS_TAGS.any (fun tag => tagsLower.contains tag) then
    Option.some (COLOR_SUCCESS, EMOJI_SUCCESS)
  else
    Option.none

/-- Python's `str.lower()` (ASCII range, which covers every tag and
priority string the source compares against). -/
def pyLower (s : String) : String := String.mk (s.data.map Char.toLower)

/-- A notification priority: `int | str` in the source's annotation. -/
inductive Priority where
  | pInt (n : Int)
  | pStr (s : String)
deriving DecidableEq, Repr

/-- `_priority_to_type` (app/discord.py).  The string branch looks the
lowercased priority up in a four-entry map defaulting to info; the int
branch compares against the urgency thresholds.  (The trailing
`return (COLOR_INFO, EMOJI_INFO)` of the source is unreachable for
values of the annotated type.) -/
def _priority_to_type : Priority → Nat × String
  | Priority.pStr s =>
    let l := pyLower s
    if l = "urgent" ∨ l = "5" then (COLOR_ERROR, EMOJI_ERROR)
    else if l = "high" ∨ l = "4" then (COLOR_WARNING, EMOJI_WARNING)
    else (COLOR_INFO, EMOJI_INFO)
  | Priority.pInt n =>
    if n ≥ PRIORITY_URGENT then (COLOR_ERROR, EMOJI_ERROR)
    else if n ≥ PRIORITY_HIGH then (COLOR_WARNING, EMOJI_WARNING)
    else (COLOR_INFO, EMOJI_INFO)

/-- `_determine_notification_type` (app/discord.py): `tags or []`,
lowercase them, let tag classification override priority, fall back to
the priority and finally to info. -/
def _determine_notification_type (priority : Option Priority)
    (tags : Option (List String)) : Nat × String :=
  let tagsLower := (tags.getD []).map pyLower
  match _check_tags_for_type tagsLower with
  | Option.some r => r
  | Option.none =>
    match priority with
    | Option.none => (COLOR_INFO, EMOJI_INFO)
    | Option.some p => _priority_to_type p

/-! ## Forwarding rules (`mappings` table, app/core/database.py) -/

structure Mapping where
  id : Nat
  ntfy_server : String
  ntfy_topic : String
  discord_webhook : String
  ntfy_auth_header : Option String
deriving DecidableEq, Repr

/-- `server.rstrip('/')`. -/
def rstripSlash (s : String) : String :=
  String.mk ((s.data.reverse.dropWhile (fun c => c = '/')).reverse)

/-- `topic.lstrip('/')`. -/
def lstripSlash (s : String) : String :=
  String.mk (s.data.dropWhile (fun c => c = '/'))

/-- The inbound stream target built by `listen_to_ntfy` (app/ntfy.py):
`f"{server.rstrip('/')}/{topic.lstrip('/')}/json"`. -/
def ntfy_url (m : Mapping) : String :=
  rstripSlash m.ntfy_server ++ "/" ++ lstripSlash m.ntfy_topic ++ "/json"

/-- `httpx.Timeout` fields, in seconds; `none` means no timeout. -/
structure TimeoutCfg where
  connect : Option Nat
  read : Option Nat
  write : Option Nat
  pool : Option Nat
deriving DecidableEq, Repr

/-- `stream_timeout` (app/ntfy.py): `connect=10.0, read=None,
write=10.0, pool=5.0`.  (The legacy inline listener in main.py instead
passes a uniform `timeout=30.0`, which does bound the read.) -/
def stream_timeout : TimeoutCfg :=
  { connect := Option.some 10
    read := Option.none
    write := Option.some 10
    pool := Option.some 5 }

def baseHeaders : List (String × String) :=
  [("User-Agent", "ntfy-discord-bridge/0.1.0"),
   ("Accept", "application/x-ndjson, application/json"),
   ("Connection", "keep-alive")]

/-- Request headers: the streaming headers plus `Authorization` when the
mapping carries a truthy auth header (`if auth_header:`). -/
def requestHeaders (m : Mapping) : List (String × String) :=
  match m.ntfy_auth_header with
  | Option.some a => if a = "" then baseHeaders else baseHeaders ++ [("Authorization", a)]
  | Option.none => baseHeaders

structure StreamRequest where
  method : String
  url : String
  headers : List (String × String)
  timeout : TimeoutCfg
deriving DecidableEq, Repr

/-- The streaming GET request `ntfy_client.stream("GET", ntfy_url)`
opened by `listen_to_ntfy` (app/ntfy.py): the client is constructed with
`headers=headers, timeout=stream_timeout`. -/
def ntfyStreamRequest (m : Mapping) : StreamRequest :=
  { method := "GET"
    url := ntfy_url m
    headers := requestHeaders m
    timeout := stream_timeout }

/-! ## One attempt of `listen_to_ntfy` and the backoff wrapper
(app/ntfy.py)

An attempt's interaction with the network is summarised by an
`AttemptOutcome`; `attemptResult` is the control flow of the function
body: which exception (if any) leaves one call of the decorated
function.  Exception classes (httpx hierarchy): `ConnectError` is a
subclass of `RequestError`; `HTTPStatusError` is NOT — it is a sibling
under `HTTPError`. -/

inductive ListenErr where
  | requestErr
  | httpStatusErr (code : Nat)
  | otherErr
deriving DecidableEq, Repr

inductive AttemptOutcome where
  /-- Response with this status code; on 2xx the stream is consumed and
  ends cleanly, so the function returns. -/
  | status (code : Nat)
  /-- `httpx.RequestError` (network/connect error) during connect. -/
  | netErr
  /-- 2xx connection established (Streaming entered), then the read
  fails with an `httpx.RequestError`. -/
  | connectThenDrop
  /-- Any other unexpected exception. -/
  | unexpected
deriving DecidableEq, Repr

/-- Control flow of one call of `listen_to_ntfy` (app/ntfy.py):
* non-2xx status: `raise_for_status` raises `HTTPStatusError`; the
  handler returns normally for 400..499 ("Stop retrying for client
  errors ... return  # End task") and re-raises otherwise;
* `RequestError` (connect or read): logged, re-raised;
* unexpected exception: logged, 5 s pause, re-raised. -/
def attemptResult : AttemptOutcome → Except ListenErr Unit
  | AttemptOutcome.status c =>
      if is2xx c then Except.ok ()
      else if isClientError c then Except.ok ()
      else Except.error (ListenErr.httpStatusErr c)
  | AttemptOutcome.netErr => Except.error ListenErr.requestErr
  | AttemptOutcome.connectThenDrop => Except.error ListenErr.requestErr
  | AttemptOutcome.unexpected => Except.error ListenErr.otherErr

/-- The decorator's exception tuple:
`backoff.on_exception(backoff.expo, (httpx.RequestError,
httpx.ConnectError), max_time=300)`.  A raised exception is retried iff
it is an instance of a listed class; `HTTPStatusError` is not an
instance of either. -/
def retryable : ListenErr → Bool
  | ListenErr.requestErr => true
  | ListenErr.httpStatusErr _ => false
  | ListenErr.otherErr => false

inductive InvResult where
  /-- The decorated call returned normally. -/
  | finished
  /-- An exception left the decorated call. -/
  | raised (e : ListenErr)
  /-- The supplied attempt script ended while the policy was still
  retrying. -/
  | pending
deriving DecidableEq, Repr

/-- One invocation of the decorated `listen_to_ntfy`, driven by a script
of attempt outcomes.  Mirrors `backoff._async.retry_exception`: the
`backoff.expo` generator yields `2 ** n` (base 2, factor 1) and is
created once per invocation — it is never reset inside one invocation;
on an exception, give up (re-raise) if it is not retryable or if the
elapsed time has reached `max_time=300`, else wait
`min(next_wait, max_time - elapsed)` and try again.  Attempts take
negligible time, so elapsed time is the sum of waits so far.  Returns
the nominal delay sequence and how the invocation ended. -/
def runFrom (n elapsed : Nat) : List AttemptOutcome → List Nat × InvResult
  | [] => ([], InvResult.pending)
  | a :: rest =>
    match attemptResult a with
    | Except.ok _ => ([], InvResult.finished)
    | Except.error e =>
      if retryable e then
        if 300 ≤ elapsed then ([], InvResult.raised e)
        else
          (min (2 ^ n) (300 - elapsed) ::
              (runFrom (n + 1) (elapsed + min (2 ^ n) (300 - elapsed)) rest).1,
            (runFrom (n + 1) (elapsed + min (2 ^ n) (300 - elapsed)) rest).2)
      else ([], InvResult.raised e)

/-- A whole invocation starts with a fresh `backoff.expo` generator and
a fresh elapsed-time clock. -/
def runInvocation (as : List AttemptOutcome) : List Nat × InvResult :=
  runFrom 0 0 as

/-! ## Supervisor: task registry and reconciliation tick
(app/task_manager.py)

The registry `running_tasks` is a dict (insertion-ordered, unique keys)
from mapping id to asyncio task.  A task is summarised by an identity
`tid` (fresh ids come from a counter threaded through the tick) and its
status at tick time. -/

inductive TStatus where
  /-- `task.done()` is false. -/
  | running
  /-- Done, `task.exception()` returns an exception. -/
  | doneFailed
  /-- Done, `task.exception()` returns None. -/
  | doneClean
deriving DecidableEq, Repr

structure PTask where
  tid : Nat
  status : TStatus
deriving DecidableEq, Repr

abbrev Registry := List (Nat × PTask)

/-- Dict lookup `running_tasks[mapping_id]` / membership order. -/
def regFind (rid : Nat) : Registry → Option PTask
  | [] => Option.none
  | (k, t) :: rest => if k = rid then Option.some t else regFind rid rest

structure CleanupOut where
  reg : Registry
  failed : List Nat
  logs : List LogEvent
deriving Repr

/-- `_cleanup_failed_tasks` with `_log_task_failure`: every task with
`task.done()` is logged at warning level (both the "has failed" and the
"completed unexpectedly" messages are warnings), appended to
`failed_task_ids`, and popped from the registry. -/
def cleanupGo : Registry → CleanupOut
  | [] => ⟨[], [], []⟩
  | (k, t) :: rest =>
    if t.status = TStatus.running then
      ⟨(k, t) :: (cleanupGo rest).reg, (cleanupGo rest).failed, (cleanupGo rest).logs⟩
    else
      ⟨(cleanupGo rest).reg, k :: (cleanupGo rest).failed,
        (Level.warning, k) :: (cleanupGo rest).logs⟩

structure StartOut where
  reg : Registry
  counter : Nat
  logs : List LogEvent
deriving Repr

/-- `_start_new_listeners`: for each mapping whose id has no registry
entry, log at info level ("Restarting failed listener" when the id is in
`failed_task_ids`, else "Found new mapping" — both info) and register a
freshly created task for it.  `failed` only selects the log text. -/
def startGo (failed : List Nat) : List Mapping → Registry → Nat → StartOut
  | [], reg, c => ⟨reg, c, []⟩
  | m :: rest, reg, c =>
    if (reg.map Prod.fst).contains m.id then startGo failed rest reg c
    else
      ⟨(startGo failed rest (reg ++ [(m.id, ⟨c, TStatus.running⟩)]) (c + 1)).reg,
        (startGo failed rest (reg ++ [(m.id, ⟨c, TStatus.running⟩)]) (c + 1)).counter,
        (Level.info, m.id) ::
          (startGo failed rest (reg ++ [(m.id, ⟨c, TStatus.running⟩)]) (c + 1)).logs⟩

structure StopOut where
  reg : Registry
  cancelled : List Nat
  logs : List LogEvent
deriving Repr

/-- `_stop_deleted_listeners`: for each stale id, log at info level;
if it is still registered, pop it, cancel its task and await it — the
cooperative cancellation surfaces as `asyncio.CancelledError`, caught
and logged at debug level.  Returns the registry, the `tid`s of the
cancelled tasks, and the logs. -/
def stopGo : List Nat → Registry → StopOut
  | [], reg => ⟨reg, [], []⟩
  | sid :: rest, reg =>
    match regFind sid reg with
    | Option.some t =>
      ⟨(stopGo rest (reg.filter (fun p => decide (p.1 ≠ sid)))).reg,
        t.tid :: (stopGo rest (reg.filter (fun p => decide (p.1 ≠ sid)))).cancelled,
        (Level.info, sid) :: (Level.debug, sid) ::
          (stopGo rest (reg.filter (fun p => decide (p.1 ≠ sid)))).logs⟩
    | Option.none =>
      ⟨(stopGo rest reg).reg, (stopGo rest reg).cancelled,
        (Level.info, sid) :: (stopGo rest reg).logs⟩

structure TickOut where
  reg : Registry
  counter : Nat
  cancelled : List Nat
  logs : List LogEvent
deriving Repr

/-- One reconciliation tick of `manage_listeners` (app/task_manager.py)
after a successful `database.list_mappings()`:
`active_task_ids` is read before cleanup; then cleanup, then start, then
stop of the stale ids (`active_task_ids - current_mapping_ids`). -/
def tickCore (mappings : List Mapping) (reg : Registry) (counter : Nat) : TickOut :=
  let currentIds := mappings.map Mapping.id
  let activeIds := reg.map Prod.fst
  let c := cleanupGo reg
  let s := startGo c.failed mappings c.reg counter
  let stale := activeIds.filter (fun k => decide (¬ k ∈ currentIds))
  let st := stopGo stale s.reg
  ⟨st.reg, s.counter, st.cancelled, c.logs ++ s.logs ++ st.logs⟩

/-- One iteration of the `while True` body: the whole tick sits in a
`try` whose `except Exception` logs at error level and falls through to
the sleep.  `database.list_mappings()` is the first fallible statement,
so a failed fetch ends the tick before any registry mutation. -/
def listTick (fetch : Except Unit (List Mapping)) (reg : Registry) (counter : Nat) :
    TickOut :=
  match fetch with
  | Except.error _ => ⟨reg, counter, [], [(Level.error, 0)]⟩
  | Except.ok ms => tickCore ms reg counter

/-- The supervision loop: one tick per fetch result, unconditionally
proceeding to the next tick. -/
def supervise : List (Except Unit (List Mapping)) → Registry × Nat → Registry × Nat
  | [], st => st
  | f :: rest, st =>
    let o := listTick f st.1 st.2
    supervise rest (o.reg, o.counter)

/-! ## Concrete scenario data (specification §8 decode-loop scenario) -/

/-- The well-formed "message" event line of the scenario. -/
def demoGoodLine : String :=
  "\x7b\"event\":\"message\",\"title\":\"T\",\"message\":\"M\"\x7d"

/-- The record `json.loads` yields for `demoGoodLine`. -/
def demoObj : Json :=
  Json.obj [("event", Json.str "message"), ("title", Json.str "T"),
    ("message", Json.str "M")]

/-- Parse oracle for the scenario: the well-formed line parses to its
record, anything else raises `JSONDecodeError`. -/
def demoParse : String → Option Json :=
  fun s => if s = demoGoodLine then Option.some demoObj else Option.none

/-- In the scenario every delivery reaches the webhook (status 204). -/
def demoDeliver : Json → PostOutcome := fun _ => PostOutcome.status 204

/-- One blank line, one malformed line, one well-formed message event. -/
def demoLines : List String := [" ", "not json", demoGoodLine]

/-- A concrete forwarding rule used in the supervisor scenarios. -/
def demoMapping : Mapping :=
  ⟨1, "https://ntfy.sh", "alerts", "https://discord.example/webhook", Option.none⟩

/-- A second concrete rule, with an auth header. -/
def demoMapping2 : Mapping :=
  ⟨2, "https://ntfy.example", "deploys", "https://discord.example/webhook2",
    Option.some "Bearer tok"⟩

/-- A registry holding running tasks for rules 2 and 1. -/
def demoReg : Registry :=
  [(2, ⟨5, TStatus.running⟩), (1, ⟨7, TStatus.running⟩)]

/-! ## Theorems -/

/-- C1: for an invocation of `listen_to_ntfy` whose connection yields a
non-2xx response, a status in 400..499 is terminal: the invocation
returns normally, raising nothing and performing no retry (no backoff
delay, no further attempt); any other non-2xx status makes the
invocation raise the status error. -/
theorem listener_4xx_terminal_5xx_raised (code : Nat) (rest : List AttemptOutcome)
    (hnot2xx : ¬ (200 ≤ code ∧ code < 300)) :
    (400 ≤ code ∧ code < 500 →
      runInvocation (AttemptOutcome.status code :: rest) = ([], InvResult.finished)) ∧
    (¬ (400 ≤ code ∧ code < 500) →
      runInvocation (AttemptOutcome.status code :: rest) =
        ([], InvResult.raised (ListenErr.httpStatusErr code))) := by
  have h2 : is2xx code = false := by simp only [is2xx]; simp; omega
  constructor
  · intro h4
    have hc : isClientError code = true := by simp only [isClientError]; simp; omega
    simp [runInvocation, runFrom, attemptResult, h2, hc]
  · intro h4
    have hc : isClientError code = false := by simp only [isClientError]; simp; omega
    simp [runInvocation, runFrom, attemptResult, retryable, h2, hc]

/-- C1 witness: a 404 ends the invocation normally with no delays, and a
503 is raised out of the invocation. -/
theorem listener_4xx_terminal_5xx_raised_witness :
    runInvocation [AttemptOutcome.status 404] = ([], InvResult.finished) ∧
    runInvocation [AttemptOutcome.status 503] =
      ([], InvResult.raised (ListenErr.httpStatusErr 503)) :=
  ⟨(listener_4xx_terminal_5xx_raised 404 [] (by omega)).1 (by omega),
   (listener_4xx_terminal_5xx_raised 503 [] (by omega)).2 (by omega)⟩

/-- C2: the exception tuple of the backoff decorator,
`(httpx.RequestError, httpx.ConnectError)`, does not include
`httpx.HTTPStatusError`, so the exception triggered by a 5xx response is
NOT retried by the policy: it escapes the invocation at once, with no
backoff delay — although network errors are retried, as witnessed by
the last conjunct.  This contradicts the claim (and the source's own
comment "Let backoff handle 5xx errors"). -/
theorem backoff_does_not_catch_5xx :
    retryable (ListenErr.httpStatusErr 500) = false ∧
    runInvocation [AttemptOutcome.status 500] =
      ([], InvResult.raised (ListenErr.httpStatusErr 500)) ∧
    retryable ListenErr.requestErr = true ∧
    runInvocation [AttemptOutcome.netErr, AttemptOutcome.status 204] =
      ([1], InvResult.finished) :=
  ⟨rfl, rfl, rfl, rfl⟩

/-- C3 counterexample: a delivery attempt that fails with an
`httpx.RequestError` (connection error) does propagate the failure back
to the calling listener — `post_to_discord` logs it and re-raises. -/
theorem dispatcher_connection_error_propagates :
    (post_to_discord PostOutcome.requestErr).2 =
      Except.error DeliverErr.requestErr ∧
    ¬ (post_to_discord PostOutcome.requestErr).2 = Except.ok () :=
  ⟨rfl, fun h => Except.noConfusion h⟩

/-- C3 amended: an error status from the webhook is swallowed by the
Dispatcher (terminal to that delivery attempt, observable only through
its error-level log), but a connection error (`httpx.RequestError`) is
logged and re-raised to the caller. -/
theorem dispatcher_failure_policy (c : Nat) :
    (post_to_discord (PostOutcome.status c)).2 = Except.ok () ∧
    (is2xx c = false → (post_to_discord (PostOutcome.status c)).1 = [Level.error]) ∧
    (post_to_discord PostOutcome.requestErr).2 = Except.error DeliverErr.requestErr := by
  refine ⟨?_, ?_, rfl⟩
  · cases h2 : is2xx c <;> simp [post_to_discord, h2]
  · intro h
    simp [post_to_discord, h]

/-- C3 amended witness: a 500 from the webhook is logged at error level
and swallowed. -/
theorem dispatcher_failure_policy_witness :
    (post_to_discord (PostOutcome.status 500)).2 = Except.ok () ∧
    (post_to_discord (PostOutcome.status 500)).1 = [Level.error] :=
  ⟨(dispatcher_failure_policy 500).1, (dispatcher_failure_policy 500).2.1 rfl⟩

/-- C5 counterexample: within one invocation the backoff sequence does
NOT reset when a connection has been successfully established and later
drops.  Script: network error, then a successful connection that drops,
then another network error.  The nominal delays are [1, 2, 4]: the
delay before the post-drop reconnect (index 1) is 2, not the base
delay 1 the claim predicts. -/
theorem backoff_not_reset_after_reconnect :
    (runInvocation [AttemptOutcome.netErr, AttemptOutcome.connectThenDrop,
        AttemptOutcome.netErr]).1 = [1, 2, 4] ∧
    ¬ (runInvocation [AttemptOutcome.netErr, AttemptOutcome.connectThenDrop,
        AttemptOutcome.netErr]).1.get? 1 = some 1 := by
  constructor
  · rfl
  · intro h
    simp [runInvocation, runFrom, attemptResult, retryable] at h

/-- Invariant of the backoff wrapper: started at generator index `k`
with elapsed time `min (2 ^ k - 1) 300`, the `i`-th further nominal
delay is `min (2 ^ (k + i)) (300 - (2 ^ (k + i) - 1))`, independent of
the attempt outcomes in between. -/
theorem runFrom_delay_formula (as : List AttemptOutcome) : ∀ k i d : Nat,
    (runFrom k (min (2 ^ k - 1) 300) as).1.get? i = some d →
    d = min (2 ^ (k + i)) (300 - (2 ^ (k + i) - 1)) := by
  induction as with
  | nil => intro k i d h; simp [runFrom] at h
  | cons a rest ih =>
    intro k i d h
    unfold runFrom at h
    cases hres : attemptResult a with
    | ok u => simp only [hres] at h; simp at h
    | error e =>
      simp only [hres] at h
      by_cases hret : retryable e = true
      · rw [if_pos hret] at h
        by_cases h300 : 300 ≤ min (2 ^ k - 1) 300
        · rw [if_pos h300] at h
          simp at h
        · rw [if_neg h300] at h
          have hone : 1 ≤ 2 ^ k := Nat.one_le_two_pow
          have hpow : (2 : Nat) ^ (k + 1) = 2 * 2 ^ k := by
            rw [pow_succ, Nat.mul_comm]
          have hstep : min (2 ^ k - 1) 300 + min (2 ^ k) (300 - min (2 ^ k - 1) 300)
              = min (2 ^ (k + 1) - 1) 300 := by omega
          rw [hstep] at h
          cases i with
          | zero =>
            have hd := Option.some.inj h
            simp only [Nat.add_zero]
            omega
          | succ i' =>
            have hih := ih (k + 1) i' d h
            have hkk : k + (i' + 1) = k + 1 + i' := by omega
            rw [hkk]
            exact hih
      · rw [if_neg hret] at h
        simp at h

/-- C5 amended: within one invocation the nominal backoff delay at retry
position `i` is `min (2 ^ i) (300 - (2 ^ i - 1))` — it doubles from the
base delay 1 up to the elapsed-time ceiling of 300 s and depends only on
the number of preceding failures in the invocation, never resetting when
a connection is successfully established and later drops; the sequence
starts again at the base delay only when a new invocation begins. -/
theorem backoff_delay_position_formula (as : List AttemptOutcome) (i d : Nat)
    (h : (runInvocation as).1.get? i = some d) :
    d = min (2 ^ i) (300 - (2 ^ i - 1)) := by
  have := runFrom_delay_formula as 0 i d h
  simpa using this

/-- C5 amended witness: after three straight network errors the third
nominal delay is 4 = min (2 ^ 2) (300 - (2 ^ 2 - 1)). -/
theorem backoff_delay_position_formula_witness :
    (runInvocation [AttemptOutcome.netErr, AttemptOutcome.netErr,
        AttemptOutcome.netErr]).1.get? 2 = some 4 ∧
    (4 : Nat) = min (2 ^ 2) (300 - (2 ^ 2 - 1)) :=
  ⟨rfl, backoff_delay_position_formula
    [AttemptOutcome.netErr, AttemptOutcome.netErr, AttemptOutcome.netErr] 2 4 rfl⟩

/-- C6: every inbound streaming GET request opened by the stream
listener (app/ntfy.py) carries a bounded connect timeout, a bounded
write timeout and an unbounded (None) read timeout. -/
theorem stream_request_timeout_config (m : Mapping) :
    (ntfyStreamRequest m).method = "GET" ∧
    (ntfyStreamRequest m).timeout.connect = Option.some 10 ∧
    (ntfyStreamRequest m).timeout.write = Option.some 10 ∧
    (ntfyStreamRequest m).timeout.read = Option.none :=
  ⟨rfl, rfl, rfl, rfl⟩

/-- C8: a reconciliation tick whose Rule Store fetch fails is caught and
logged at error level, leaves the task registry (and the task-id
counter) exactly as it was, and the supervision loop proceeds with the
remaining ticks as if the failed tick had not happened. -/
theorem fetch_failure_preserves_registry (reg : Registry) (counter : Nat)
    (rest : List (Except Unit (List Mapping))) :
    (listTick (Except.error ()) reg counter).reg = reg ∧
    (listTick (Except.error ()) reg counter).counter = counter ∧
    (∃ l ∈ (listTick (Except.error ()) reg counter).logs, l.1 = Level.error) ∧
    supervise (Except.error () :: rest) (reg, counter) = supervise rest (reg, counter) :=
  ⟨rfl, rfl, ⟨(Level.error, 0), by simp [listTick]⟩, rfl⟩

/-- Any status response, 2xx or not, leaves `post_to_discord` returning
normally (`HTTPStatusError` is swallowed there). -/
theorem post_to_discord_status_ok (c : Nat) :
    (post_to_discord (PostOutcome.status c)).2 = Except.ok () := by
  cases h : is2xx c <;> simp [post_to_discord, h]

/-- C7: over any sequence of lines in which every successfully parsed
value is a structured record (a dict), and in which deliveries do not
raise connection errors, the decode loop finishes without error —
blank lines and unparseable lines are skipped without terminating the
stream — and the records handed to the Dispatcher are exactly the
parsed records whose event kind is "message", each passed through
unchanged. -/
theorem decode_loop_dispatch_spec (parse : String → Option Json)
    (deliver : Json → PostOutcome) (lines : List String)
    (hrec : linesAllRecords parse lines = true)
    (hdel : ∀ j : Json, deliver j ≠ PostOutcome.requestErr) :
    processLines parse deliver lines =
      (specDispatchedEvents parse lines, Except.ok ()) := by
  revert hrec
  induction lines with
  | nil => intro hrec; rfl
  | cons line rest ih =>
    intro hrec
    rw [linesAllRecords] at hrec
    obtain ⟨hhead, htail⟩ := Bool.and_eq_true_iff.mp hrec
    cases hb : isBlank line with
    | true => simp [processLines, specDispatchedEvents, hb, ih htail]
    | false =>
      cases hp : parse line with
      | none => simp [processLines, specDispatchedEvents, hb, hp, ih htail]
      | some j =>
        cases j with
        | obj kvs =>
          cases hm : isMessageEvent kvs with
          | true =>
            have hok : (post_to_discord (deliver (Json.obj kvs))).2 = Except.ok () := by
              cases hd : deliver (Json.obj kvs) with
              | status c => exact post_to_discord_status_ok c
              | requestErr => exact absurd hd (hdel _)
            simp [processLines, specDispatchedEvents, hb, hp, hm, hok, ih htail]
          | false =>
            simp [processLines, specDispatchedEvents, hb, hp, hm, ih htail]
        | str s => simp [hb, hp] at hhead
        | num n => simp [hb, hp] at hhead
        | null => simp [hb, hp] at hhead

/-- C7 witness: the §8 scenario — one blank line, one malformed line,
one well-formed "message" event — dispatches exactly that one event
with its fields unchanged, and the loop ends without error. -/
theorem decode_loop_dispatch_spec_witness :
    processLines demoParse demoDeliver demoLines = ([demoObj], Except.ok ()) :=
  Eq.trans
    (decode_loop_dispatch_spec demoParse demoDeliver demoLines (by decide)
      (fun _ h => PostOutcome.noConfusion h))
    rfl

/-- Bridge between `l.contains` and membership for strings. -/
theorem string_contains_iff (l : List String) (a : String) :
    l.contains a = true ↔ a ∈ l :=
  ⟨fun h => List.mem_of_elem_eq_true h, fun h => List.elem_eq_true_of_mem h⟩

/-- The source's tag test `any(tag in tags_lower for tag in ts)` holds
iff some tag of the notification, lowercased, lies in the tag set. -/
theorem tag_match_iff (ts : List String) (tags : List String) :
    (ts.any fun tag => (tags.map pyLower).contains tag) = true ↔
      ∃ t ∈ tags, pyLower t ∈ ts := by
  rw [List.any_eq_true]
  constructor
  · rintro ⟨tag, htag, hc⟩
    obtain ⟨t, ht, rfl⟩ := List.mem_map.mp ((string_contains_iff _ _).mp hc)
    exact ⟨t, ht, htag⟩
  · rintro ⟨t, ht, hts⟩
    exact ⟨pyLower t, hts, (string_contains_iff _ _).mpr (List.mem_map.mpr ⟨t, ht, rfl⟩)⟩

/-- `_check_tags_for_type` when an error tag is present. -/
theorem check_tags_error (tl : List String)
    (h : (ERROR_TAGS.any fun tag => tl.contains tag) = true) :
    _check_tags_for_type tl = Option.some (COLOR_ERROR, EMOJI_ERROR) := by
  unfold _check_tags_for_type
  rw [if_pos h]

/-- `_check_tags_for_type` when no error tag but a warning tag is
present. -/
theorem check_tags_warning (tl : List String)
    (hE : (ERROR_TAGS.any fun tag => tl.contains tag) = false)
    (hW : (WARNING_TAGS.any fun tag => tl.contains tag) = true) :
    _check_tags_for_type tl = Option.some (COLOR_WARNING, EMOJI_WARNING) := by
  unfold _check_tags_for_type
  rw [if_neg (by rw [hE]; simp), if_pos hW]

/-- `_check_tags_for_type` when no error or warning tag but a success
tag is present. -/
theorem check_tags_success (tl : List String)
    (hE : (ERROR_TAGS.any fun tag => tl.contains tag) = false)
    (hW : (WARNING_TAGS.any fun tag => tl.contains tag) = false)
    (hS : (SUCCESS_TAGS.any fun tag => tl.contains tag) = true) :
    _check_tags_for_type tl = Option.some (COLOR_SUCCESS, EMOJI_SUCCESS) := by
  unfold _check_tags_for_type
  rw [if_neg (by rw [hE]; simp), if_neg (by rw [hW]; simp), if_pos hS]

/-- `_check_tags_for_type` yields nothing or one of the three tag-based
pairs. -/
theorem check_tags_result (tl : List String) :
    _check_tags_for_type tl = Option.none ∨
    _check_tags_for_type tl = Option.some (COLOR_ERROR, EMOJI_ERROR) ∨
    _check_tags_for_type tl = Option.some (COLOR_WARNING, EMOJI_WARNING) ∨
    _check_tags_for_type tl = Option.some (COLOR_SUCCESS, EMOJI_SUCCESS) := by
  unfold _check_tags_for_type
  split_ifs <;> simp

/-- `_priority_to_type` yields one of the error, warning and info
pairs. -/
theorem priority_type_result (p : Priority) :
    _priority_to_type p = (COLOR_ERROR, EMOJI_ERROR) ∨
    _priority_to_type p = (COLOR_WARNING, EMOJI_WARNING) ∨
    _priority_to_type p = (COLOR_INFO, EMOJI_INFO) := by
  cases p <;> (dsimp only [_priority_to_type]; split_ifs <;> simp)

/-- C10: `_determine_notification_type` always yields one of the four
fixed (color, emoji) pairs; tags take precedence over any priority: a
case-insensitive error tag forces the error pair, error tags take
precedence over warning tags, and warning tags over success tags. -/
theorem notification_type_classification (p : Option Priority)
    (tags : Option (List String)) :
    (_determine_notification_type p tags = (COLOR_ERROR, EMOJI_ERROR) ∨
     _determine_notification_type p tags = (COLOR_WARNING, EMOJI_WARNING) ∨
     _determine_notification_type p tags = (COLOR_SUCCESS, EMOJI_SUCCESS) ∨
     _determine_notification_type p tags = (COLOR_INFO, EMOJI_INFO)) ∧
    ((∃ t ∈ tags.getD [], pyLower t ∈ ERROR_TAGS) →
      _determine_notification_type p tags = (COLOR_ERROR, EMOJI_ERROR)) ∧
    ((¬ ∃ t ∈ tags.getD [], pyLower t ∈ ERROR_TAGS) →
      (∃ t ∈ tags.getD [], pyLower t ∈ WARNING_TAGS) →
      _determine_notification_type p tags = (COLOR_WARNING, EMOJI_WARNING)) ∧
    ((¬ ∃ t ∈ tags.getD [], pyLower t ∈ ERROR_TAGS) →
      (¬ ∃ t ∈ tags.getD [], pyLower t ∈ WARNING_TAGS) →
      (∃ t ∈ tags.getD [], pyLower t ∈ SUCCESS_TAGS) →
      _determine_notification_type p tags = (COLOR_SUCCESS, EMOJI_SUCCESS)) := by
  refine ⟨?_, ?_, ?_, ?_⟩
  · rcases check_tags_result ((tags.getD []).map pyLower) with hc | hc | hc | hc
    · cases p with
      | none => simp [_determine_notification_type, hc]
      | some pr =>
        rcases priority_type_result pr with hp | hp | hp <;>
          simp [_determine_notification_type, hc, hp]
    · simp [_determine_notification_type, hc]
    · simp [_determine_notification_type, hc]
    · simp [_determine_notification_type, hc]
  · intro hE
    have hbE := (tag_match_iff ERROR_TAGS (tags.getD [])).mpr hE
    simp [_determine_notification_type, check_tags_error _ hbE]
  · intro hnE hW
    have hbE : (ERROR_TAGS.any fun tag =>
        ((tags.getD []).map pyLower).contains tag) = false := by
      cases hx : (ERROR_TAGS.any fun tag =>
          ((tags.getD []).map pyLower).contains tag)
      · rfl
      · exact absurd ((tag_match_iff _ _).mp hx) hnE
    have hbW := (tag_match_iff WARNING_TAGS (tags.getD [])).mpr hW
    simp [_determine_notification_type, check_tags_warning _ hbE hbW]
  · intro hnE hnW hS
    have hbE : (ERROR_TAGS.any fun tag =>
        ((tags.getD []).map pyLower).contains tag) = false := by
      cases hx : (ERROR_TAGS.any fun tag =>
          ((tags.getD []).map pyLower).contains tag)
      · rfl
      · exact absurd ((tag_match_iff _ _).mp hx) hnE
    have hbW : (WARNING_TAGS.any fun tag =>
        ((tags.getD []).map pyLower).contains tag) = false := by
      cases hx : (WARNING_TAGS.any fun tag =>
          ((tags.getD []).map pyLower).contains tag)
      · rfl
      · exact absurd ((tag_match_iff _ _).mp hx) hnW
    have hbS := (tag_match_iff SUCCESS_TAGS (tags.getD [])).mpr hS
    simp [_determine_notification_type, check_tags_success _ hbE hbW hbS]

/-- C10 witness: an uppercase error tag forces the error pair even at
the lowest priority. -/
theorem notification_type_classification_witness :
    _determine_notification_type (Option.some (Priority.pInt 1))
      (Option.some ["FIRE"]) = (COLOR_ERROR, EMOJI_ERROR) :=
  (notification_type_classification (Option.some (Priority.pInt 1))
    (Option.some ["FIRE"])).2.1 ⟨"FIRE", by decide, by decide⟩

/-! ### Registry lemmas shared by the supervisor theorems -/

/-- Bridge between `l.contains` and membership for naturals. -/
theorem nat_contains_iff (l : List Nat) (a : Nat) :
    l.contains a = true ↔ a ∈ l :=
  ⟨fun h => List.mem_of_elem_eq_true h, fun h => List.elem_eq_true_of_mem h⟩

/-- Membership in the cleaned registry: exactly the still-running
entries survive `_cleanup_failed_tasks`. -/
theorem cleanup_mem (reg : Registry) (p : Nat × PTask) :
    p ∈ (cleanupGo reg).reg ↔ p ∈ reg ∧ p.2.status = TStatus.running := by
  induction reg with
  | nil => simp [cleanupGo]
  | cons q rest ih =>
    obtain ⟨k, t⟩ := q
    by_cases hs : t.status = TStatus.running
    · rw [show cleanupGo ((k, t) :: rest) = ⟨(k, t) :: (cleanupGo rest).reg,
          (cleanupGo rest).failed, (cleanupGo rest).logs⟩ from by simp [cleanupGo, hs]]
      constructor
      · intro hp
        rcases List.mem_cons.mp hp with rfl | hp'
        · exact ⟨List.mem_cons_self _ _, hs⟩
        · obtain ⟨h1, h2⟩ := ih.mp hp'
          exact ⟨List.mem_cons_of_mem _ h1, h2⟩
      · rintro ⟨hp, hst⟩
        rcases List.mem_cons.mp hp with rfl | hp'
        · exact List.mem_cons_self _ _
        · exact List.mem_cons_of_mem _ (ih.mpr ⟨hp', hst⟩)
    · rw [show cleanupGo ((k, t) :: rest) = ⟨(cleanupGo rest).reg,
          k :: (cleanupGo rest).failed, (Level.warning, k) :: (cleanupGo rest).logs⟩
          from by simp [cleanupGo, hs]]
      constructor
      · intro hp
        obtain ⟨h1, h2⟩ := ih.mp hp
        exact ⟨List.mem_cons_of_mem _ h1, h2⟩
      · rintro ⟨hp, hst⟩
        rcases List.mem_cons.mp hp with rfl | hp'
        · exact absurd hst hs
        · exact ih.mpr ⟨hp', hst⟩

/-- `regFind` misses exactly the keys absent from the registry. -/
theorem regFind_eq_none_iff (rid : Nat) (reg : Registry) :
    regFind rid reg = Option.none ↔ rid ∉ reg.map Prod.fst := by
  induction reg with
  | nil => simp [regFind]
  | cons q rest ih =>
    obtain ⟨k, t⟩ := q
    by_cases hk : k = rid
    · subst hk
      simp [regFind]
    · simp [regFind, hk, Ne.symm hk, ih]

/-- A found entry is a member of the registry. -/
theorem regFind_mem (rid : Nat) (reg : Registry) (t : PTask)
    (h : regFind rid reg = Option.some t) : (rid, t) ∈ reg := by
  induction reg with
  | nil => simp [regFind] at h
  | cons q rest ih =>
    obtain ⟨k, u⟩ := q
    by_cases hk : k = rid
    · subst hk
      rw [show regFind k ((k, u) :: rest) = Option.some u from by simp [regFind]] at h
      obtain rfl := Option.some.inj h
      exact List.mem_cons_self _ _
    · rw [show regFind rid ((k, u) :: rest) = regFind rid rest from by simp [regFind, hk]] at h
      exact List.mem_cons_of_mem _ (ih h)

/-- With unique keys, membership determines the lookup result. -/
theorem regFind_of_mem_nodup (rid : Nat) (t : PTask) :
    ∀ reg : Registry, (reg.map Prod.fst).Nodup → (rid, t) ∈ reg →
    regFind rid reg = Option.some t := by
  intro reg
  induction reg with
  | nil => intro _ hm; simp at hm
  | cons q rest ih =>
    intro hnd hm
    obtain ⟨k, u⟩ := q
    rw [List.map_cons, List.nodup_cons] at hnd
    rcases List.mem_cons.mp hm with heq | hm'
    · injection heq with h1 h2
      subst h1; subst h2
      simp [regFind]
    · have hne : k ≠ rid := by
        intro he
        subst he
        exact hnd.1 (List.mem_map.mpr ⟨(k, t), hm', rfl⟩)
      rw [show regFind rid ((k, u) :: rest) = regFind rid rest from by simp [regFind, hne]]
      exact ih hnd.2 hm'

/-- With unique keys, two entries sharing a key are the same entry. -/
theorem nodup_keys_unique (p q : Nat × PTask) :
    ∀ reg : Registry, (reg.map Prod.fst).Nodup → p ∈ reg → q ∈ reg →
    p.1 = q.1 → p = q := by
  intro reg
  induction reg with
  | nil => intro _ hp; simp at hp
  | cons r rest ih =>
    intro hnd hp hq hpq
    rw [List.map_cons, List.nodup_cons] at hnd
    rcases List.mem_cons.mp hp with rfl | hp'
    · rcases List.mem_cons.mp hq with rfl | hq'
      · rfl
      · exact absurd (List.mem_map.mpr ⟨q, hq', hpq.symm⟩) hnd.1
    · rcases List.mem_cons.mp hq with rfl | hq'
      · exact absurd (List.mem_map.mpr ⟨p, hp', hpq⟩) hnd.1
      · exact ih hnd.2 hp' hq' hpq

/-- Appending cannot change a successful lookup. -/
theorem regFind_append_of_some (rid : Nat) (l : Registry) (t : PTask) :
    ∀ reg : Registry, regFind rid reg = Option.some t →
    regFind rid (reg ++ l) = Option.some t := by
  intro reg
  induction reg with
  | nil => intro h; simp [regFind] at h
  | cons q rest ih =>
    intro h
    obtain ⟨k, u⟩ := q
    by_cases hk : k = rid
    · subst hk
      rw [show regFind k ((k, u) :: rest) = Option.some u from by simp [regFind]] at h
      rw [List.cons_append,
        show regFind k ((k, u) :: (rest ++ l)) = Option.some u from by simp [regFind]]
      exact h
    · rw [show regFind rid ((k, u) :: rest) = regFind rid rest from by simp [regFind, hk]] at h
      rw [List.cons_append,
        show regFind rid ((k, u) :: (rest ++ l)) = regFind rid (rest ++ l) from by
          simp [regFind, hk]]
      exact ih h

/-- Appending a binding for an absent key makes it findable. -/
theorem regFind_append_none (rid : Nat) (t : PTask) :
    ∀ reg : Registry, regFind rid reg = Option.none →
    regFind rid (reg ++ [(rid, t)]) = Option.some t := by
  intro reg
  induction reg with
  | nil => intro _; simp [regFind]
  | cons q rest ih =>
    intro h
    obtain ⟨k, u⟩ := q
    by_cases hk : k = rid
    · subst hk
      rw [show regFind k ((k, u) :: rest) = Option.some u from by simp [regFind]] at h
      exact absurd h (by simp)
    · rw [show regFind rid ((k, u) :: rest) = regFind rid rest from by simp [regFind, hk]] at h
      rw [List.cons_append,
        show regFind rid ((k, u) :: (rest ++ [(rid, t)])) = regFind rid (rest ++ [(rid, t)])
          from by simp [regFind, hk]]
      exact ih h

/-- Appending a binding for a different key leaves lookups unchanged. -/
theorem regFind_append_ne (rid k : Nat) (t : PTask) (hne : k ≠ rid) :
    ∀ reg : Registry, regFind rid (reg ++ [(k, t)]) = regFind rid reg := by
  intro reg
  induction reg with
  | nil => simp [regFind, hne]
  | cons q rest ih =>
    obtain ⟨k', u⟩ := q
    by_cases hk' : k' = rid
    · subst hk'
      rw [List.cons_append]
      simp [regFind]
    · rw [List.cons_append]
      rw [show regFind rid ((k', u) :: (rest ++ [(k, t)])) = regFind rid (rest ++ [(k, t)])
          from by simp [regFind, hk']]
      rw [show regFind rid ((k', u) :: rest) = regFind rid rest from by simp [regFind, hk']]
      exact ih

/-- `_start_new_listeners` never disturbs an existing entry. -/
theorem startGo_preserves (failed : List Nat) (rid : Nat) (t : PTask) :
    ∀ (ms : List Mapping) (reg : Registry) (c : Nat),
    regFind rid reg = Option.some t →
    regFind rid (startGo failed ms reg c).reg = Option.some t := by
  intro ms
  induction ms with
  | nil => intro reg c h; exact h
  | cons m rest ih =>
    intro reg c h
    by_cases hc : ((reg.map Prod.fst).contains m.id) = true
    · rw [show startGo failed (m :: rest) reg c = startGo failed rest reg c from by
        simp only [startGo]; rw [if_pos hc]]
      exact ih reg c h
    · have hmne : m.id ≠ rid := by
        intro he
        subst he
        exact hc ((nat_contains_iff _ _).mpr
          (List.mem_map.mpr ⟨(m.id, t), regFind_mem _ _ _ h, rfl⟩))
      rw [show (startGo failed (m :: rest) reg c).reg =
          (startGo failed rest (reg ++ [(m.id, ⟨c, TStatus.running⟩)]) (c + 1)).reg from by
        simp only [startGo]; rw [if_neg hc]]
      exact ih _ _ (regFind_append_of_some _ _ _ _ h)

/-- `_start_new_listeners` registers a fresh running task for every
desired rule id absent from the registry. -/
theorem startGo_adds (failed : List Nat) (rid : Nat) :
    ∀ (ms : List Mapping) (reg : Registry) (c : Nat),
    rid ∈ ms.map Mapping.id →
    regFind rid reg = Option.none →
    ∃ t : PTask, regFind rid (startGo failed ms reg c).reg = Option.some t ∧
      t.status = TStatus.running ∧ c ≤ t.tid := by
  intro ms
  induction ms with
  | nil => intro reg c hm _; simp at hm
  | cons m rest ih =>
    intro reg c hm hn
    rw [List.map_cons] at hm
    by_cases hc : ((reg.map Prod.fst).contains m.id) = true
    · have hmne : m.id ≠ rid := by
        intro he
        rw [he] at hc
        exact absurd ((nat_contains_iff _ _).mp hc) ((regFind_eq_none_iff _ _).mp hn)
      have hm' : rid ∈ rest.map Mapping.id := by
        rcases List.mem_cons.mp hm with heq | hm'
        · exact absurd heq.symm hmne
        · exact hm'
      rw [show startGo failed (m :: rest) reg c = startGo failed rest reg c from by
        simp only [startGo]; rw [if_pos hc]]
      exact ih reg c hm' hn
    · by_cases hmr : m.id = rid
      · subst hmr
        have hfound := regFind_append_none m.id (⟨c, TStatus.running⟩ : PTask) reg hn
        refine ⟨⟨c, TStatus.running⟩, ?_, rfl, Nat.le_refl c⟩
        rw [show (startGo failed (m :: rest) reg c).reg =
            (startGo failed rest (reg ++ [(m.id, ⟨c, TStatus.running⟩)]) (c + 1)).reg
            from by simp only [startGo]; rw [if_neg hc]]
        exact startGo_preserves failed m.id _ rest _ (c + 1) hfound
      · have hm' : rid ∈ rest.map Mapping.id := by
          rcases List.mem_cons.mp hm with heq | hm'
          · exact absurd heq.symm hmr
          · exact hm'
        have hn' : regFind rid (reg ++ [(m.id, ⟨c, TStatus.running⟩)]) = Option.none := by
          rw [regFind_append_ne rid m.id _ hmr reg]
          exact hn
        obtain ⟨t, hfind, hrun, hle⟩ := ih _ (c + 1) hm' hn'
        refine ⟨t, ?_, hrun, Nat.le_of_succ_le hle⟩
        rw [show (startGo failed (m :: rest) reg c).reg =
            (startGo failed rest (reg ++ [(m.id, ⟨c, TStatus.running⟩)]) (c + 1)).reg
            from by simp only [startGo]; rw [if_neg hc]]
        exact hfind

/-- Every entry after `_start_new_listeners` is either an original
entry or a freshly created task. -/
theorem startGo_mem (failed : List Nat) (p : Nat × PTask) :
    ∀ (ms : List Mapping) (reg : Registry) (c : Nat),
    p ∈ (startGo failed ms reg c).reg → p ∈ reg ∨ c ≤ p.2.tid := by
  intro ms
  induction ms with
  | nil => intro reg c h; exact Or.inl h
  | cons m rest ih =>
    intro reg c h
    by_cases hc : ((reg.map Prod.fst).contains m.id) = true
    · rw [show startGo failed (m :: rest) reg c = startGo failed rest reg c from by
        simp only [startGo]; rw [if_pos hc]] at h
      exact ih reg c h
    · rw [show (startGo failed (m :: rest) reg c).reg =
          (startGo failed rest (reg ++ [(m.id, ⟨c, TStatus.running⟩)]) (c + 1)).reg
          from by simp only [startGo]; rw [if_neg hc]] at h
      rcases ih _ (c + 1) h with hin | hle
      · rcases List.mem_append.mp hin with h1 | h2
        · exact Or.inl h1
        · have hp := List.mem_singleton.mp h2
          exact Or.inr (by rw [hp])
      · exact Or.inr (Nat.le_of_succ_le hle)

/-- Removing one key from the registry leaves other lookups alone. -/
theorem regFind_filter_ne (rid sid : Nat) (hne : sid ≠ rid) :
    ∀ reg : Registry,
    regFind rid (reg.filter fun p => decide (p.1 ≠ sid)) = regFind rid reg := by
  intro reg
  induction reg with
  | nil => rfl
  | cons q rest ih =>
    obtain ⟨k, t⟩ := q
    by_cases hks : k = sid
    · subst hks
      rw [List.filter_cons, if_neg (by simp)]
      rw [ih]
      rw [show regFind rid ((k, t) :: rest) = regFind rid rest from by simp [regFind, hne]]
    · rw [List.filter_cons, if_pos (by simp [hks])]
      by_cases hkr : k = rid
      · subst hkr
        simp [regFind]
      · rw [show regFind rid ((k, t) :: (rest.filter fun p => decide (p.1 ≠ sid)))
            = regFind rid (rest.filter fun p => decide (p.1 ≠ sid)) from by
          simp [regFind, hkr]]
        rw [show regFind rid ((k, t) :: rest) = regFind rid rest from by
          simp [regFind, hkr]]
        exact ih

/-- `_stop_deleted_listeners` only ever removes entries. -/
theorem stopGo_subset (p : Nat × PTask) :
    ∀ (ids : List Nat) (reg : Registry), p ∈ (stopGo ids reg).reg → p ∈ reg := by
  intro ids
  induction ids with
  | nil => intro reg h; exact h
  | cons sid rest ih =>
    intro reg h
    cases hf : regFind sid reg with
    | some t =>
      rw [show (stopGo (sid :: rest) reg).reg =
          (stopGo rest (reg.filter fun p => decide (p.1 ≠ sid))).reg from by
        simp [stopGo, hf]] at h
      exact List.mem_of_mem_filter (ih _ h)
    | none =>
      rw [show (stopGo (sid :: rest) reg).reg = (stopGo rest reg).reg from by
        simp [stopGo, hf]] at h
      exact ih _ h

/-- `_stop_deleted_listeners` leaves rules outside the stale set
untouched. -/
theorem stopGo_not_mentioned (rid : Nat) :
    ∀ (ids : List Nat) (reg : Registry), rid ∉ ids →
    regFind rid (stopGo ids reg).reg = regFind rid reg := by
  intro ids
  induction ids with
  | nil => intro reg _; rfl
  | cons sid rest ih =>
    intro reg hnin
    have h1 : sid ≠ rid := fun he => hnin (he ▸ List.mem_cons_self _ _)
    have h2 : rid ∉ rest := fun hm => hnin (List.mem_cons_of_mem _ hm)
    cases hf : regFind sid reg with
    | some t =>
      rw [show (stopGo (sid :: rest) reg).reg =
          (stopGo rest (reg.filter fun p => decide (p.1 ≠ sid))).reg from by
        simp [stopGo, hf]]
      rw [ih _ h2, regFind_filter_ne rid sid h1 reg]
    | none =>
      rw [show (stopGo (sid :: rest) reg).reg = (stopGo rest reg).reg from by
        simp [stopGo, hf]]
      exact ih _ h2

/-- C4: a registered task whose unit of concurrency has finished — with
or without a captured failure — is removed from the registry by the
next reconciliation tick, and, its rule id being present in that tick's
snapshot, a fresh running listener task (task id at least the current
counter, so distinct from every pre-existing task) is registered for
the rule within that same tick. -/
theorem finished_task_restarted_same_tick (mappings : List Mapping) (reg : Registry)
    (counter : Nat) (rid : Nat) (t : PTask)
    (hmem : (rid, t) ∈ reg)
    (hdone : t.status ≠ TStatus.running)
    (hrule : rid ∈ mappings.map Mapping.id)
    (hnodup : (reg.map Prod.fst).Nodup)
    (hfresh : ∀ p ∈ reg, p.2.tid < counter) :
    (∃ t' : PTask, regFind rid (tickCore mappings reg counter).reg = Option.some t' ∧
      t'.status = TStatus.running ∧ counter ≤ t'.tid) ∧
    (rid, t) ∉ (tickCore mappings reg counter).reg := by
  have hclean_none : regFind rid (cleanupGo reg).reg = Option.none := by
    rw [regFind_eq_none_iff]
    intro hin
    obtain ⟨p, hp, hpe⟩ := List.mem_map.mp hin
    obtain ⟨hpreg, hprun⟩ := (cleanup_mem reg p).mp hp
    have hpt : p = (rid, t) := nodup_keys_unique p (rid, t) reg hnodup hpreg hmem hpe
    rw [hpt] at hprun
    exact hdone hprun
  obtain ⟨t', hfound, hrun, hle⟩ :=
    startGo_adds (cleanupGo reg).failed rid mappings (cleanupGo reg).reg counter
      hrule hclean_none
  have hstale : rid ∉ (reg.map Prod.fst).filter
      (fun k => decide (¬ k ∈ mappings.map Mapping.id)) := by
    intro hin
    have hdec := (List.mem_filter.mp hin).2
    rw [decide_eq_true_eq] at hdec
    exact hdec hrule
  constructor
  · refine ⟨t', ?_, hrun, hle⟩
    simp only [tickCore]
    rw [stopGo_not_mentioned rid _ _ hstale]
    exact hfound
  · intro hin
    simp only [tickCore] at hin
    have h1 := stopGo_subset (rid, t) _ _ hin
    rcases startGo_mem _ (rid, t) _ _ _ h1 with h2 | h2
    · exact hdone ((cleanup_mem reg (rid, t)).mp h2).2
    · exact absurd h2 (Nat.not_le.mpr (hfresh _ hmem))

/-- C4 witness: rule 1's task finished with a failure; the tick removes
it and registers a fresh running task for rule 1. -/
theorem finished_task_restarted_same_tick_witness :
    (∃ t' : PTask,
      regFind 1 (tickCore [demoMapping] [(1, ⟨0, TStatus.doneFailed⟩)] 1).reg
          = Option.some t' ∧
      t'.status = TStatus.running ∧ 1 ≤ t'.tid) ∧
    (1, (⟨0, TStatus.doneFailed⟩ : PTask)) ∉
      (tickCore [demoMapping] [(1, ⟨0, TStatus.doneFailed⟩)] 1).reg :=
  finished_task_restarted_same_tick [demoMapping] [(1, ⟨0, TStatus.doneFailed⟩)] 1 1
    ⟨0, TStatus.doneFailed⟩ (by decide) (by decide) (by decide) (by decide) (by decide)

/-- A tick over an all-running registry cleans up nothing. -/
theorem cleanup_id (reg : Registry)
    (h : ∀ p ∈ reg, p.2.status = TStatus.running) :
    cleanupGo reg = ⟨reg, [], []⟩ := by
  induction reg with
  | nil => rfl
  | cons q rest ih =>
    obtain ⟨k, t⟩ := q
    have ht : t.status = TStatus.running := h (k, t) (List.mem_cons_self _ _)
    have ih' := ih (fun p hp => h p (List.mem_cons_of_mem _ hp))
    simp [cleanupGo, ht, ih']

/-- When every desired rule already has a registry entry, the start
phase is the identity. -/
theorem start_id (failed : List Nat) :
    ∀ (ms : List Mapping) (reg : Registry) (c : Nat),
    (∀ m ∈ ms, m.id ∈ reg.map Prod.fst) →
    startGo failed ms reg c = ⟨reg, c, []⟩ := by
  intro ms
  induction ms with
  | nil => intro reg c _; rfl
  | cons m rest ih =>
    intro reg c h
    have hc : ((reg.map Prod.fst).contains m.id) = true :=
      (nat_contains_iff _ _).mpr (h m (List.mem_cons_self _ _))
    have ih' := ih reg c (fun x hx => h x (List.mem_cons_of_mem _ hx))
    rw [show startGo failed (m :: rest) reg c = startGo failed rest reg c from by
      simp only [startGo]; rw [if_pos hc]]
    exact ih'

/-- A duplicate-free key list whose predicate holds only at one present
key filters down to that singleton. -/
theorem filter_single (rid : Nat) (p : Nat → Bool) :
    ∀ keys : List Nat, keys.Nodup → rid ∈ keys → p rid = true →
    (∀ k ∈ keys, k ≠ rid → p k = false) → keys.filter p = [rid] := by
  intro keys
  induction keys with
  | nil => intro _ h; simp at h
  | cons k rest ih =>
    intro hnd hmem hp hother
    rw [List.nodup_cons] at hnd
    rcases List.mem_cons.mp hmem with rfl | hmem'
    · rw [List.filter_cons, if_pos (by simp [hp])]
      have hrest : rest.filter p = [] := by
        rw [List.filter_eq_nil_iff]
        intro a ha
        have hne : a ≠ rid := fun he => hnd.1 (he ▸ ha)
        simp [hother a (List.mem_cons_of_mem _ ha) hne]
      rw [hrest]
    · have hkne : k ≠ rid := fun he => hnd.1 (he ▸ hmem')
      rw [List.filter_cons, if_neg (by simp [hother k (List.mem_cons_self _ _) hkne])]
      exact ih hnd.2 hmem' hp (fun x hx hne => hother x (List.mem_cons_of_mem _ hx) hne)

/-- C9: when the snapshot equals the registered rule set minus exactly
the rule `rid` (every registered task still running), the tick removes
and cancels exactly `rid`'s listener task, leaves every other registry
entry untouched (order included), and logs the phase only at info/debug
level — the clean cancellation is not logged as an error or failure. -/
theorem tick_removed_rule_exact (mappings2 : List Mapping) (reg : Registry)
    (counter : Nat) (rid : Nat) (t : PTask)
    (hnodup : (reg.map Prod.fst).Nodup)
    (hrun : ∀ p ∈ reg, p.2.status = TStatus.running)
    (hfind : regFind rid reg = Option.some t)
    (hsub : ∀ m ∈ mappings2, m.id ∈ reg.map Prod.fst ∧ m.id ≠ rid)
    (hsup : ∀ k ∈ reg.map Prod.fst, k ≠ rid → k ∈ mappings2.map Mapping.id) :
    (tickCore mappings2 reg counter).reg = reg.filter (fun p => decide (p.1 ≠ rid)) ∧
    (tickCore mappings2 reg counter).cancelled = [t.tid] ∧
    ∀ l ∈ (tickCore mappings2 reg counter).logs,
      l.1 = Level.info ∨ l.1 = Level.debug := by
  have hcl := cleanup_id reg hrun
  have hst := start_id [] mappings2 reg counter (fun m hm => (hsub m hm).1)
  have hrid_mem : rid ∈ reg.map Prod.fst :=
    List.mem_map.mpr ⟨(rid, t), regFind_mem _ _ _ hfind, rfl⟩
  have hrid_not2 : ¬ rid ∈ mappings2.map Mapping.id := by
    intro hin
    obtain ⟨m, hm, hme⟩ := List.mem_map.mp hin
    exact (hsub m hm).2 hme
  have hstale : (reg.map Prod.fst).filter
      (fun k => decide (¬ k ∈ mappings2.map Mapping.id)) = [rid] := by
    apply filter_single rid _ _ hnodup hrid_mem
    · simp [hrid_not2]
    · intro k hk hkne
      simp [hsup k hk hkne]
  have hstop : stopGo [rid] reg =
      ⟨reg.filter (fun p => decide (p.1 ≠ rid)), [t.tid],
        [(Level.info, rid), (Level.debug, rid)]⟩ := by
    simp [stopGo, hfind]
  have htick : tickCore mappings2 reg counter =
      ⟨reg.filter (fun p => decide (p.1 ≠ rid)), counter, [t.tid],
        [(Level.info, rid), (Level.debug, rid)]⟩ := by
    simp only [tickCore, hcl, hst, hstale, hstop, List.nil_append]
  refine ⟨by rw [htick], by rw [htick], ?_⟩
  rw [htick]
  intro l hl
  rcases List.mem_cons.mp hl with rfl | hl'
  · exact Or.inl rfl
  · rcases List.mem_cons.mp hl' with rfl | hl''
    · exact Or.inr rfl
    · simp at hl''

/-- C9 witness: deleting rule 1 from {rule 2, rule 1} cancels exactly
rule 1's task (task id 7) and keeps rule 2's entry; all logs of the
tick are info/debug. -/
theorem tick_removed_rule_exact_witness :
    (tickCore [demoMapping2] demoReg 9).reg = [(2, ⟨5, TStatus.running⟩)] ∧
    (tickCore [demoMapping2] demoReg 9).cancelled = [7] ∧
    ∀ l ∈ (tickCore [demoMapping2] demoReg 9).logs,
      l.1 = Level.info ∨ l.1 = Level.debug :=
  have h := tick_removed_rule_exact [demoMapping2] demoReg 9 1 ⟨7, TStatus.running⟩
    (by decide) (by decide) (by decide) (by decide) (by decide)
  ⟨Eq.trans h.1 (by decide), h.2.1, h.2.2⟩

end NtfyBridge
